import Mathlib

/-!
Verification of the chat server in `server.py` (with the reader in
`chat_viewer.py`).  The Python code is embedded shallowly: dictionaries
become association lists, sockets become `Nat` handles, wall-clock
timestamps become `Nat` ticks, and a possible failure of a `socket.send`
call is an environment input given by a `sendOk` oracle.
-/

namespace ChatBot

/-! ## Association lists with Python dict semantics -/

/-- `d[k]` as an `Option` (`None` models a `KeyError` / failed `in` test). -/
def alookup {κ α : Type} [DecidableEq κ] (k : κ) : List (κ × α) → Option α
  | [] => none
  | p :: rest => if p.1 = k then some p.2 else alookup k rest

/-- `d[k] = v`: replaces in place, appends at the end when the key is new. -/
def dinsert {κ α : Type} [DecidableEq κ] (k : κ) (v : α) : List (κ × α) → List (κ × α)
  | [] => [(k, v)]
  | p :: rest => if p.1 = k then (k, v) :: rest else p :: dinsert k v rest

/-- `del d[k]`: removes the first binding of `k`. -/
def derase {κ α : Type} [DecidableEq κ] (k : κ) : List (κ × α) → List (κ × α)
  | [] => []
  | p :: rest => if p.1 = k then rest else p :: derase k rest

/-- The keys of the association list are pairwise distinct (true of every
Python dict; maintained by `dinsert`/`derase`). -/
def keysNodup {κ α : Type} (d : List (κ × α)) : Prop := (d.map Prod.fst).Nodup

/-! ## SHA-256 (`hashlib.sha256(message.encode()).hexdigest()`)

Machine words are `Nat`s reduced mod `2 ^ 32`; messages are lists of byte
values obtained from the UTF-8 encoding that Python's `str.encode()` uses. -/

def w32 (n : Nat) : Nat := n % 4294967296

def rotr (n x : Nat) : Nat := w32 ((x >>> n) ||| (x <<< (32 - n)))

def shaCh (x y z : Nat) : Nat := (x &&& y) ^^^ ((x ^^^ 4294967295) &&& z)

def shaMaj (x y z : Nat) : Nat := (x &&& y) ^^^ (x &&& z) ^^^ (y &&& z)

def bigSigma0 (x : Nat) : Nat := rotr 2 x ^^^ rotr 13 x ^^^ rotr 22 x

def bigSigma1 (x : Nat) : Nat := rotr 6 x ^^^ rotr 11 x ^^^ rotr 25 x

def smallSigma0 (x : Nat) : Nat := rotr 7 x ^^^ rotr 18 x ^^^ (x >>> 3)

def smallSigma1 (x : Nat) : Nat := rotr 17 x ^^^ rotr 19 x ^^^ (x >>> 10)

/-- The 64 round constants of FIPS 180-4, as decimal numerals. -/
def shaK : List Nat :=
  [1116352408, 1899447441, 3049323471, 3921009573, 961987163, 1508970993,
   2453635748, 2870763221, 3624381080, 310598401, 607225278, 1426881987,
   1925078388, 2162078206, 2614888103, 3248222580, 3835390401, 4022224774,
   264347078, 604807628, 770255983, 1249150122, 1555081692, 1996064986,
   2554220882, 2821834349, 2952996808, 3210313671, 3336571891, 3584528711,
   113926993, 338241895, 666307205, 773529912, 1294757372, 1396182291,
   1695183700, 1986661051, 2177026350, 2456956037, 2730485921, 2820302411,
   3259730800, 3345764771, 3516065817, 3600352804, 4094571909, 275423344,
   430227734, 506948616, 659060556, 883997877, 958139571, 1322822218,
   1537002063, 1747873779, 1955562222, 2024104815, 2227730452, 2361852424,
   2428436474, 2756734187, 3204031479, 3329325298]

structure Regs where
  a : Nat
  b : Nat
  c : Nat
  d : Nat
  e : Nat
  f : Nat
  g : Nat
  h : Nat
  deriving DecidableEq

/-- The eight initial hash values of FIPS 180-4, as decimal numerals. -/
def initH : Regs :=
  ⟨1779033703, 3144134277, 1013904242, 2773480762,
   1359893119, 2600822924, 528734635, 1541459225⟩

/-- `k` bytes of `v`, big-endian. -/
def toBytesBE : Nat → Nat → List Nat
  | 0, _ => []
  | k + 1, v => toBytesBE k (v >>> 8) ++ [v % 256]

/-- SHA-256 padding: a 0x80 byte, zeros to 56 mod 64, the bit length on 8 bytes. -/
def padMessage (msg : List Nat) : List Nat :=
  msg ++ [128] ++ List.replicate ((119 - msg.length % 64) % 64) 0
      ++ toBytesBE 8 (msg.length * 8)

def chunks64 (l : List Nat) : List (List Nat) :=
  match l with
  | [] => []
  | b :: rest => (b :: rest).take 64 :: chunks64 ((b :: rest).drop 64)
  termination_by l.length
  decreasing_by
    simp only [List.length_drop, List.length_cons]
    omega

def bytesToWords : List Nat → List Nat
  | b0 :: b1 :: b2 :: b3 :: rest =>
      (((b0 * 256 + b1) * 256 + b2) * 256 + b3) :: bytesToWords rest
  | _ => []

/-- Extend the 16 block words to the 64-entry message schedule. -/
def schedule (ws : List Nat) : List Nat :=
  (List.range 48).foldl
    (fun acc i =>
      acc ++ [w32 (smallSigma1 (acc.getD (i + 14) 0) + acc.getD (i + 9) 0 +
        smallSigma0 (acc.getD (i + 1) 0) + acc.getD i 0)])
    ws

def roundStep (r : Regs) (kw : Nat × Nat) : Regs :=
  let t1 := r.h + bigSigma1 r.e + shaCh r.e r.f r.g + kw.1 + kw.2
  let t2 := bigSigma0 r.a + shaMaj r.a r.b r.c
  ⟨w32 (t1 + t2), r.a, r.b, r.c, w32 (r.d + t1), r.e, r.f, r.g⟩

def compressBlock (hs : Regs) (block : List Nat) : Regs :=
  let r := (shaK.zip (schedule (bytesToWords block))).foldl roundStep hs
  ⟨w32 (hs.a + r.a), w32 (hs.b + r.b), w32 (hs.c + r.c), w32 (hs.d + r.d),
   w32 (hs.e + r.e), w32 (hs.f + r.f), w32 (hs.g + r.g), w32 (hs.h + r.h)⟩

def sha256Regs (msg : List Nat) : Regs :=
  (chunks64 (padMessage msg)).foldl compressBlock initH

/-- The 256-bit digest as a natural number. -/
def sha256Nat (msg : List Nat) : Nat :=
  let r := sha256Regs msg
  ((((((r.a * 4294967296 + r.b) * 4294967296 + r.c) * 4294967296 + r.d) * 4294967296
      + r.e) * 4294967296 + r.f) * 4294967296 + r.g) * 4294967296 + r.h

def hexDigit (n : Nat) : Char :=
  if n < 10 then Char.ofNat (48 + n) else Char.ofNat (87 + n)

def natToHexChars (k n : Nat) : List Char :=
  (List.range k).map fun i => hexDigit ((n >>> (4 * (k - 1 - i))) % 16)

/-- UTF-8 encoding of one code point (what Python `str.encode()` produces). -/
def utf8Bytes (c : Char) : List Nat :=
  let n := c.toNat
  if n < 128 then [n]
  else if n < 2048 then [192 + n / 64, 128 + n % 64]
  else if n < 65536 then [224 + n / 4096, 128 + (n / 64) % 64, 128 + n % 64]
  else [240 + n / 262144, 128 + (n / 4096) % 64, 128 + (n / 64) % 64, 128 + n % 64]

def strBytes (s : String) : List Nat := s.data.flatMap utf8Bytes

/-- `ChatServer.hash_message`: `hashlib.sha256(message.encode()).hexdigest()`. -/
def hash_message (message : String) : String :=
  String.mk (natToHexChars 64 (sha256Nat (strBytes message)))

/-! ## The Persistence Store (`save_chat_history` and the on-disk records)

`datetime.now()` is abstracted as a `Nat` tick passed to each operation. -/

/-- One persisted record, the dict built in `save_chat_history`. -/
structure ChatEntry where
  timestamp : Nat
  sender : String
  receiver : String
  message : String
  message_hash : String
  type : String
  deriving DecidableEq

def mkChatEntry (t : Nat) (sender receiver message mtype : String) : ChatEntry :=
  ⟨t, sender, receiver, message, hash_message message, mtype⟩

/-- `sorted([sender, receiver])` for a two-element list. -/
def sortPair (a b : String) : String × String := if a ≤ b then (a, b) else (b, a)

/-- The log file chosen by `save_chat_history` for a message. -/
def chatFilename (sender receiver mtype : String) : String :=
  if mtype = "group" then "server_logs/groups/" ++ receiver ++ "_group.json"
  else
    "server_logs/" ++ (sortPair sender receiver).1 ++ "_" ++
      (sortPair sender receiver).2 ++ "_conversation.json"

/-- What the log file holds when `save_chat_history` opens it: absent,
present but not valid JSON, or a valid entry array. -/
inductive FileContent where
  | missing : FileContent
  | corrupt : FileContent
  | valid : List ChatEntry → FileContent
  deriving DecidableEq

/-- The read step of `save_chat_history`: only `FileNotFoundError` is caught
(yielding `[]`); a JSON decode failure propagates as an exception. -/
def load_history_for_append : FileContent → Except String (List ChatEntry)
  | FileContent.missing => Except.ok []
  | FileContent.corrupt => Except.error ("json.JSONDecodeError")
  | FileContent.valid h => Except.ok h

/-- `ChatServer.save_chat_history`: the chosen filename and the history the
file holds afterwards (or the exception that escaped). -/
def save_chat_history (t : Nat) (sender receiver message mtype : String)
    (fc : FileContent) : String × Except String (List ChatEntry) :=
  (chatFilename sender receiver mtype,
   (load_history_for_append fc).map
     (fun h => h ++ [mkChatEntry t sender receiver message mtype]))

/-- `ChatViewer.verify_message_integrity`: recompute the SHA-256 hex digest of
the stored `message` field and compare it with the stored `message_hash`. -/
def verify_message_integrity (e : ChatEntry) : Bool :=
  e.message_hash == hash_message e.message

def regsBounded (r : Regs) : Prop :=
  r.a < 4294967296 ∧ r.b < 4294967296 ∧ r.c < 4294967296 ∧ r.d < 4294967296 ∧
  r.e < 4294967296 ∧ r.f < 4294967296 ∧ r.g < 4294967296 ∧ r.h < 4294967296

/-! ## The Session Registry and Connection Handler handshake

Sockets are `Nat` handles; `clients` embeds `self.clients` (socket to name)
and `client_names` embeds `self.client_names` (name to socket). -/

structure SessionState where
  clients : List (Nat × String)
  client_names : List (String × Nat)
  deriving DecidableEq

structure HSResult where
  accepted : Bool
  reply : String
  state : SessionState
  deriving DecidableEq

/-- The handshake step of `handle_client`: reject a taken name and close
without touching the registries, otherwise register in both maps.  (The
join notifications to other clients and the multi-line help text of the
welcome message are elided; only the claim-relevant reply is kept.) -/
def handshake (sock : Nat) (username : String) (st : SessionState) : HSResult :=
  if (alookup username st.client_names).isSome then
    ⟨false, "Username already taken. Please try again.", st⟩
  else
    ⟨true, "Welcome to the chat, " ++ username ++ "!",
     ⟨dinsert sock username st.clients, dinsert username sock st.client_names⟩⟩

/-- `ChatServer.remove_client`: drop the socket from both maps and send the
departure notice to every remaining client (each send guarded by
`try/except pass`, an attempt succeeding when `sendOk` says so). -/
def remove_client (sendOk : Nat → Bool) (sock : Nat) (st : SessionState) :
    SessionState × List (Nat × String) :=
  match alookup sock st.clients with
  | none => (st, [])
  | some name =>
      let clients' := derase sock st.clients
      let names' :=
        if (alookup name st.client_names).isSome then derase name st.client_names
        else st.client_names
      let msg := name ++ " has left the chat"
      (⟨clients', names'⟩,
       clients'.filterMap fun p => if sendOk p.1 then some (p.1, msg) else none)

/-- Steps the Session Registry can take: one handshake per inbound connection
and one teardown per departing client. -/
inductive SStep : SessionState → SessionState → Prop
  | connect (st : SessionState) (sock : Nat) (name : String) :
      SStep st (handshake sock name st).state
  | disconnect (st : SessionState) (sendOk : Nat → Bool) (sock : Nat) :
      SStep st (remove_client sendOk sock st).1

inductive SReach : SessionState → Prop
  | init : SReach ⟨[], []⟩
  | step {s u : SessionState} : SReach s → SStep s u → SReach u

/-- The inductive invariant of the Session Registry: socket keys are unique
and every session's name maps back to its socket in `client_names`. -/
def SessionInv (st : SessionState) : Prop :=
  keysNodup st.clients ∧ ∀ p ∈ st.clients, alookup p.2 st.client_names = some p.1

/-! ## The Message Router -/

/-- Result of one `broadcast_message` call.  `delivered` lists the broadcast
lines handed to sockets, `notices` the departure notices sent by
`remove_client` from the `except` arm, and `raised` records the
`RuntimeError` CPython throws when a dict changes size during iteration. -/
structure BCResult where
  state : SessionState
  delivered : List (Nat × String)
  notices : List (Nat × String)
  raised : Bool
  deriving DecidableEq

/-- The fan-out loop of `broadcast_message` over a snapshot of
`self.clients.items()`.  `dirty` is set once the dict has been mutated under
the iterator; the next request for an item then raises `RuntimeError`.  (The
per-recipient `save_chat_history` call inside the `try` is modelled as
succeeding; a send failure is the claim-relevant exception source.) -/
def broadcastAux (sendOk : Nat → Bool) (ssock : Nat) (sname msg : String) :
    List (Nat × String) → SessionState → List (Nat × String) →
      List (Nat × String) → Bool → BCResult
  | [], st, dAcc, nAcc, dirty => ⟨st, dAcc.reverse, nAcc.reverse, dirty⟩
  | (sock, _) :: rest, st, dAcc, nAcc, dirty =>
    if dirty then ⟨st, dAcc.reverse, nAcc.reverse, true⟩
    else if sock = ssock then broadcastAux sendOk ssock sname msg rest st dAcc nAcc false
    else if sendOk sock then
      broadcastAux sendOk ssock sname msg rest st
        ((sock, sname ++ ": " ++ msg) :: dAcc) nAcc false
    else
      let r := remove_client sendOk sock st
      broadcastAux sendOk ssock sname msg rest r.1 dAcc (r.2.reverse ++ nAcc) true

/-- `ChatServer.broadcast_message`. -/
def broadcast_message (sendOk : Nat → Bool) (msg : String) (ssock : Nat)
    (st : SessionState) : BCResult :=
  broadcastAux sendOk ssock ((alookup ssock st.clients).getD "Unknown") msg
    st.clients st [] [] false

/-- Result of one `send_private_message` call: the sends that reached a
socket, the log append that took place (filename and entry), and whether an
exception escaped to `handle_client`. -/
structure PMResult where
  sends : List (Nat × String)
  appended : Option (String × ChatEntry)
  raised : Bool
  deriving DecidableEq

/-- `ChatServer.send_private_message`.  `fc` is the current content of the
sorted-pair conversation file; `sendOk` tells which sockets accept a send. -/
def send_private_message (sendOk : Nat → Bool) (t : Nat) (fc : FileContent)
    (message : String) (ssock : Nat) (target : String) (st : SessionState) :
    PMResult :=
  let sender_name := (alookup ssock st.clients).getD "Unknown"
  match alookup target st.client_names with
  | some tsock =>
      if sendOk tsock then
        let s1 := (tsock, "[Private] " ++ sender_name ++ ": " ++ message)
        if sendOk ssock then
          let s2 := (ssock, "[Private to " ++ target ++ "]: " ++ message)
          match (save_chat_history t sender_name target message "direct" fc).2 with
          | Except.ok _ =>
              ⟨[s1, s2],
               some (chatFilename sender_name target "direct",
                     mkChatEntry t sender_name target message "direct"), false⟩
          | Except.error _ =>
              -- the JSON decode failure lands in the bare `except`, which
              -- reports a send error to the sender; nothing was appended
              ⟨[s1, s2, (ssock, "Error: Could not send message to " ++ target)],
               none, false⟩
        else
          -- the confirmation send failed and the `except` arm's reply to the
          -- same dead socket raises out of the handler
          ⟨[s1], none, true⟩
      else
        if sendOk ssock then
          ⟨[(ssock, "Error: Could not send message to " ++ target)], none, false⟩
        else ⟨[], none, true⟩
  | none =>
      if sendOk ssock then
        ⟨[(ssock, "Error: User " ++ target ++ " not found")], none, false⟩
      else ⟨[], none, true⟩

/-- Result of one `send_group_message` call.  `delivered` pairs each reached
member name with the formatted line; `saved` is the group-log append;
`raised` records a JSON decode failure escaping from `save_chat_history`. -/
structure GMResult where
  reply : String
  delivered : List (String × String)
  saved : Option (String × ChatEntry)
  raised : Bool
  deriving DecidableEq

/-- `ChatServer.send_group_message`.  `groups` is `self.groups`;
`client_names` decides which members are online; `fc` is the group log. -/
def send_group_message (sendOk : String → Bool) (t : Nat) (fc : FileContent)
    (message gname sender : String) (groups : List (String × List String))
    (client_names : List (String × Nat)) : GMResult :=
  match alookup gname groups with
  | none => ⟨"Group '" ++ gname ++ "' does not exist", [], none, false⟩
  | some ms =>
      if sender ≠ "SYSTEM" ∧ sender ∉ ms then
        ⟨"You are not a member of group '" ++ gname ++ "'", [], none, false⟩
      else
        let full :=
          if sender = "SYSTEM" then "[" ++ gname ++ "] " ++ message
          else "[" ++ gname ++ "] " ++ sender ++ ": " ++ message
        let recip := ms.filter fun m =>
          (alookup m client_names).isSome && m != sender && sendOk m
        let delivered := recip.map fun m => (m, full)
        if sender = "SYSTEM" then
          ⟨"Message sent to " ++ toString recip.length ++ " group members",
           delivered, none, false⟩
        else
          match (save_chat_history t sender gname message "group" fc).2 with
          | Except.ok _ =>
              ⟨"Message sent to " ++ toString recip.length ++ " group members",
               delivered,
               some (chatFilename sender gname "group",
                     mkChatEntry t sender gname message "group"), false⟩
          | Except.error _ =>
              -- the decode failure propagates; no reply is returned
              ⟨"", delivered, none, true⟩

/-- `message[1:].split(chr(32), 1)` on the character list. -/
def splitFirstSpace : List Char → List Char × Option (List Char)
  | [] => ([], none)
  | c :: rest =>
      if c = ' ' then ([], some rest)
      else
        let r := splitFirstSpace rest
        (c :: r.1, r.2)

def pySplitOnce (s : String) : String × Option String :=
  ((splitFirstSpace s.data).1.asString, (splitFirstSpace s.data).2.map List.asString)

/-- What the sender's handler does with one line `#<body>`: the replies the
sender's own socket receives, plus the routing outcome. -/
structure DispatchResult where
  senderReplies : List String
  delivered : List (String × String)
  saved : Option (String × ChatEntry)
  raised : Bool
  deriving DecidableEq

/-- The `message.startswith(chr(35))` branch of `handle_client`: route via
`send_group_message`, then send the sender the echo line.  The returned
`response` string is never sent to anyone. -/
def dispatch_hash (sendOk : String → Bool) (t : Nat) (fc : FileContent)
    (username body : String) (groups : List (String × List String))
    (client_names : List (String × Nat)) : DispatchResult :=
  match pySplitOnce body with
  | (_, none) =>
      ⟨["Invalid group message format. Use: #groupname message"], [], none, false⟩
  | (g, some txt) =>
      let r := send_group_message sendOk t fc txt g username groups client_names
      if r.raised then ⟨[], r.delivered, r.saved, true⟩
      else ⟨["[" ++ g ++ "] " ++ username ++ ": " ++ txt], r.delivered, r.saved, false⟩

/-! ## The Group Registry

`groups` embeds `self.groups` (the Python sets become lists without
duplicates, added at the end), `group_admins` embeds `self.group_admins`,
and `files` holds the persisted `<group>_info.json` metadata per group. -/

structure GroupMeta where
  admin : String
  members : List String
  created_date : Nat
  deriving DecidableEq

structure GroupState where
  groups : List (String × List String)
  group_admins : List (String × String)
  files : List (String × GroupMeta)
  deriving DecidableEq

/-- `ChatServer.save_group_info`: overwrite the group's info file with the
current admin, member list and `datetime.now()` as `created_date`.  The
source raises `KeyError` when the group is absent from either dict; that
(unreachable) branch leaves the state unchanged here. -/
def save_group_info (t : Nat) (gname : String) (st : GroupState) : GroupState :=
  match alookup gname st.group_admins, alookup gname st.groups with
  | some adm, some ms => { st with files := dinsert gname ⟨adm, ms, t⟩ st.files }
  | _, _ => st

/-- `ChatServer.create_group`. -/
def create_group (t : Nat) (admin_name gname : String) (st : GroupState) :
    String × GroupState :=
  if (alookup gname st.groups).isSome then
    ("Group '" ++ gname ++ "' already exists", st)
  else
    ("Group '" ++ gname ++ "' created successfully. You are the admin.",
     save_group_info t gname
       { st with groups := dinsert gname [admin_name] st.groups,
                 group_admins := dinsert gname admin_name st.group_admins })

/-- `ChatServer.add_to_group`.  `online` is the key set of
`self.client_names`; the notification sends do not touch group state and are
elided. -/
def add_to_group (t : Nat) (online : List String) (admin_name gname username : String)
    (st : GroupState) : String × GroupState :=
  match alookup gname st.groups with
  | none => ("Group '" ++ gname ++ "' does not exist", st)
  | some ms =>
      match alookup gname st.group_admins with
      | none => ("KeyError", st)
      | some adm =>
          if adm ≠ admin_name then
            ("Only the admin can add members to '" ++ gname ++ "'", st)
          else if username ∉ online then
            ("User '" ++ username ++ "' is not online", st)
          else if username ∈ ms then
            ("User '" ++ username ++ "' is already in the group", st)
          else
            ("User '" ++ username ++ "' added to group '" ++ gname ++ "'",
             save_group_info t gname
               { st with groups := dinsert gname (ms ++ [username]) st.groups })

/-- `ChatServer.leave_group`.  `next(iter(set))` for the admin handover is
modelled as the head of the remaining member list; notification sends are
elided.  The source removes the member, then reassigns the admin when the
leaver was admin and members remain, then deletes the group when it became
empty (else re-persists); since the reassignment fires only when members
remain, the branches are written here with the emptiness test first. -/
def leave_group (t : Nat) (username gname : String) (st : GroupState) :
    String × GroupState :=
  match alookup gname st.groups with
  | none => ("Group '" ++ gname ++ "' does not exist", st)
  | some ms =>
      if username ∉ ms then
        ("You are not a member of group '" ++ gname ++ "'", st)
      else
        match alookup gname st.group_admins with
        | none => ("KeyError", st)
        | some adm =>
            if ms.erase username = [] then
              ("Left group '" ++ gname ++ "'. Group was deleted as it became empty.",
               ⟨derase gname (dinsert gname (ms.erase username) st.groups),
                derase gname st.group_admins,
                derase gname st.files⟩)
            else if adm = username then
              ("Left group '" ++ gname ++ "'",
               save_group_info t gname
                 ⟨dinsert gname (ms.erase username) st.groups,
                  dinsert gname ((ms.erase username).headD username) st.group_admins,
                  st.files⟩)
            else
              ("Left group '" ++ gname ++ "'",
               save_group_info t gname
                 { st with groups := dinsert gname (ms.erase username) st.groups })

/-- Any interleaving of the three Group Registry operations, with arbitrary
callers, clock ticks and online sets. -/
inductive GStep : GroupState → GroupState → Prop
  | create (st : GroupState) (t : Nat) (admin gname : String) :
      GStep st (create_group t admin gname st).2
  | add (st : GroupState) (t : Nat) (online : List String)
      (admin gname user : String) :
      GStep st (add_to_group t online admin gname user st).2
  | leave (st : GroupState) (t : Nat) (user gname : String) :
      GStep st (leave_group t user gname st).2

inductive GReach : GroupState → Prop
  | init : GReach ⟨[], [], []⟩
  | step {s u : GroupState} : GReach s → GStep s u → GReach u

/-- The inductive invariant of the Group Registry: dict keys are unique, and
every existing group is non-empty with its admin among the members. -/
def GroupInv (st : GroupState) : Prop :=
  keysNodup st.groups ∧ keysNodup st.group_admins ∧ keysNodup st.files ∧
  ∀ g ms, alookup g st.groups = some ms →
    ms ≠ [] ∧ ∃ adm, alookup g st.group_admins = some adm ∧ adm ∈ ms

/-! ## Lemmas and theorems -/

theorem alookup_dinsert_self {κ α : Type} [DecidableEq κ] (k : κ) (v : α)
    (d : List (κ × α)) : alookup k (dinsert k v d) = some v := by
  induction d with
  | nil => simp [dinsert, alookup]
  | cons p rest ih =>
      by_cases h : p.1 = k <;> simp [dinsert, alookup, h, ih]

theorem alookup_dinsert_ne {κ α : Type} [DecidableEq κ] {k k' : κ} (v : α)
    (d : List (κ × α)) (h : k' ≠ k) : alookup k (dinsert k' v d) = alookup k d := by
  induction d with
  | nil => simp [dinsert, alookup, h]
  | cons p rest ih =>
      by_cases hp : p.1 = k'
      · simp [dinsert, alookup, hp, h]
      · simp [dinsert, alookup, hp, ih]

theorem alookup_derase_ne {κ α : Type} [DecidableEq κ] {k k' : κ}
    (d : List (κ × α)) (h : k' ≠ k) : alookup k (derase k' d) = alookup k d := by
  induction d with
  | nil => simp [derase]
  | cons p rest ih =>
      by_cases hp : p.1 = k'
      · have hk : ¬ p.1 = k := fun hh => h ((hp.symm.trans hh))
        simp [derase, alookup, hp, hk, h]
      · simp [derase, alookup, hp, ih]

theorem alookup_eq_none {κ α : Type} [DecidableEq κ] (k : κ) (d : List (κ × α)) :
    alookup k d = none ↔ k ∉ d.map Prod.fst := by
  induction d with
  | nil => simp [alookup]
  | cons p rest ih =>
      by_cases h : p.1 = k
      · simp [alookup, h]
      · have h2 : ¬ k = p.1 := fun hh => h hh.symm
        simp [alookup, h, h2, ih]

theorem alookup_derase_self {κ α : Type} [DecidableEq κ] (k : κ)
    (d : List (κ × α)) (hd : keysNodup d) : alookup k (derase k d) = none := by
  induction d with
  | nil => simp [derase, alookup]
  | cons p rest ih =>
      simp only [keysNodup, List.map_cons, List.nodup_cons] at hd
      by_cases h : p.1 = k
      · subst h
        simp only [derase, if_pos rfl]
        exact (alookup_eq_none _ _).2 hd.1
      · simp [derase, alookup, h, ih hd.2]

theorem mem_keys_dinsert {κ α : Type} [DecidableEq κ] (k : κ) (v : α)
    (d : List (κ × α)) (x : κ) :
    x ∈ (dinsert k v d).map Prod.fst ↔ x = k ∨ x ∈ d.map Prod.fst := by
  induction d with
  | nil => simp [dinsert]
  | cons p rest ih =>
      by_cases h : p.1 = k
      · have h1 : dinsert k v (p :: rest) = (k, v) :: rest := by simp [dinsert, h]
        rw [h1]
        simp only [List.map_cons, List.mem_cons, h]
        tauto
      · simp only [dinsert, if_neg h, List.map_cons, List.mem_cons, ih]
        tauto

theorem keysNodup_dinsert {κ α : Type} [DecidableEq κ] (k : κ) (v : α)
    (d : List (κ × α)) (hd : keysNodup d) : keysNodup (dinsert k v d) := by
  induction d with
  | nil => simp [dinsert, keysNodup]
  | cons p rest ih =>
      simp only [keysNodup, List.map_cons, List.nodup_cons] at hd
      by_cases h : p.1 = k
      · have h1 : dinsert k v (p :: rest) = (k, v) :: rest := by simp [dinsert, h]
        rw [h1]
        simp only [keysNodup, List.map_cons, List.nodup_cons]
        exact ⟨h ▸ hd.1, hd.2⟩
      · simp only [dinsert, if_neg h, keysNodup, List.map_cons, List.nodup_cons]
        refine ⟨?_, ih hd.2⟩
        intro hmem
        rcases (mem_keys_dinsert k v rest p.1).1 hmem with h1 | h1
        · exact h h1
        · exact hd.1 h1

theorem mem_keys_derase {κ α : Type} [DecidableEq κ] (k : κ)
    (d : List (κ × α)) (x : κ) :
    x ∈ (derase k d).map Prod.fst → x ∈ d.map Prod.fst := by
  induction d with
  | nil => simp [derase]
  | cons p rest ih =>
      by_cases h : p.1 = k
      · simp only [derase, if_pos h, List.map_cons, List.mem_cons]
        tauto
      · simp only [derase, if_neg h, List.map_cons, List.mem_cons]
        tauto

theorem keysNodup_derase {κ α : Type} [DecidableEq κ] (k : κ)
    (d : List (κ × α)) (hd : keysNodup d) : keysNodup (derase k d) := by
  induction d with
  | nil => simp [derase, keysNodup]
  | cons p rest ih =>
      simp only [keysNodup, List.map_cons, List.nodup_cons] at hd
      by_cases h : p.1 = k
      · simpa [derase, h, keysNodup] using hd.2
      · simp only [derase, if_neg h, keysNodup, List.map_cons, List.nodup_cons]
        exact ⟨fun hm => hd.1 (mem_keys_derase k rest p.1 hm), ih hd.2⟩

theorem mem_dinsert {κ α : Type} [DecidableEq κ] {k : κ} {v : α}
    {d : List (κ × α)} {p : κ × α} (hp : p ∈ dinsert k v d) :
    p = (k, v) ∨ p ∈ d := by
  induction d with
  | nil => simpa [dinsert] using hp
  | cons q rest ih =>
      by_cases h : q.1 = k
      · rcases by simpa [dinsert, h] using hp with h1 | h1
        · exact Or.inl h1
        · exact Or.inr (List.mem_cons_of_mem _ h1)
      · rcases by simpa [dinsert, h] using hp with h1 | h1
        · exact Or.inr (by simp [h1])
        · rcases ih h1 with h2 | h2
          · exact Or.inl h2
          · exact Or.inr (List.mem_cons_of_mem _ h2)

theorem mem_derase {κ α : Type} [DecidableEq κ] {k : κ}
    {d : List (κ × α)} {p : κ × α} (hd : keysNodup d) (hp : p ∈ derase k d) :
    p ∈ d ∧ p.1 ≠ k := by
  induction d with
  | nil => simp [derase] at hp
  | cons q rest ih =>
      simp only [keysNodup, List.map_cons, List.nodup_cons] at hd
      by_cases h : q.1 = k
      · have hmem : p ∈ rest := by simpa [derase, h] using hp
        refine ⟨List.mem_cons_of_mem _ hmem, ?_⟩
        intro hk
        exact hd.1 (h ▸ hk ▸ List.mem_map_of_mem Prod.fst hmem)
      · rcases by simpa [derase, h] using hp with h1 | h1
        · exact ⟨by simp [h1], h1 ▸ h⟩
        · rcases ih hd.2 h1 with ⟨h2, h3⟩
          exact ⟨List.mem_cons_of_mem _ h2, h3⟩

theorem alookup_some_mem {κ α : Type} [DecidableEq κ] {k : κ} {v : α}
    {d : List (κ × α)} (h : alookup k d = some v) : (k, v) ∈ d := by
  induction d with
  | nil => simp [alookup] at h
  | cons p rest ih =>
      obtain ⟨a, b⟩ := p
      by_cases hp : a = k
      · subst hp
        have hb : b = v := by simpa [alookup] using h
        subst hb
        exact List.mem_cons_self _ _
      · exact List.mem_cons_of_mem _ (ih (by simpa [alookup, hp] using h))

/-! The digest is 256 bits wide, so `sha256Nat` lands in `Fin (2 ^ 256)`. -/

theorem w32_lt (n : Nat) : w32 n < 4294967296 := Nat.mod_lt _ (by norm_num)

theorem compressBlock_bounded (hs : Regs) (block : List Nat) :
    regsBounded (compressBlock hs block) :=
  ⟨w32_lt _, w32_lt _, w32_lt _, w32_lt _, w32_lt _, w32_lt _, w32_lt _, w32_lt _⟩

theorem foldl_compress_bounded (l : List (List Nat)) :
    ∀ hs : Regs, regsBounded hs → regsBounded (l.foldl compressBlock hs) := by
  induction l with
  | nil => intro hs h; simpa using h
  | cons b rest ih =>
      intro hs _
      rw [List.foldl_cons]
      exact ih (compressBlock hs b) (compressBlock_bounded hs b)

theorem sha256Regs_bounded (msg : List Nat) : regsBounded (sha256Regs msg) :=
  foldl_compress_bounded _ initH (by norm_num [regsBounded, initH])

theorem sha256Nat_lt (msg : List Nat) : sha256Nat msg < 2 ^ 256 := by
  obtain ⟨ha, hb, hc, hd, he, hf, hg, hh⟩ := sha256Regs_bounded msg
  have hpow : (2 : Nat) ^ 256 =
      4294967296 * 4294967296 * 4294967296 * 4294967296 *
      4294967296 * 4294967296 * 4294967296 * 4294967296 := by norm_num
  unfold sha256Nat
  rw [hpow]
  set r := sha256Regs msg
  nlinarith [ha, hb, hc, hd, he, hf, hg, hh]

/-- SHA-256 maps the infinitely many strings into a finite digest space, so by
pigeonhole two distinct strings share a `hash_message` value.  (This is the
nonconstructive fact that the stored hash is a corruption checksum, not an
injective fingerprint.) -/
theorem hash_message_collision :
    ∃ a b : String, a ≠ b ∧ hash_message a = hash_message b := by
  obtain ⟨a, b, hne, heq⟩ :=
    Finite.exists_ne_map_eq_of_infinite
      (fun s : String => (⟨sha256Nat (strBytes s), sha256Nat_lt _⟩ : Fin (2 ^ 256)))
  refine ⟨a, b, hne, ?_⟩
  have hval : sha256Nat (strBytes a) = sha256Nat (strBytes b) := congrArg Fin.val heq
  unfold hash_message
  rw [hval]

/-! ### The Session Registry invariant -/

theorem sessionInv_handshake (sock : Nat) (name : String) (st : SessionState)
    (h : SessionInv st) : SessionInv (handshake sock name st).state := by
  obtain ⟨hk, hp⟩ := h
  by_cases hname : (alookup name st.client_names).isSome
  · have hstate : (handshake sock name st).state = st := by simp [handshake, hname]
    rw [hstate]
    exact ⟨hk, hp⟩
  · have hstate : (handshake sock name st).state =
        ⟨dinsert sock name st.clients, dinsert name sock st.client_names⟩ := by
      simp [handshake, hname]
    rw [hstate]
    refine ⟨keysNodup_dinsert _ _ _ hk, ?_⟩
    intro p hmem
    rcases mem_dinsert hmem with h1 | h1
    · subst h1
      exact alookup_dinsert_self _ _ _
    · have hne : name ≠ p.2 := by
        intro he
        exact hname (by rw [he, hp p h1]; rfl)
      rw [alookup_dinsert_ne _ _ hne]
      exact hp p h1

theorem sessionInv_remove (sendOk : Nat → Bool) (sock : Nat) (st : SessionState)
    (h : SessionInv st) : SessionInv (remove_client sendOk sock st).1 := by
  obtain ⟨hk, hp⟩ := h
  unfold remove_client
  cases hlook : alookup sock st.clients with
  | none => exact ⟨hk, hp⟩
  | some name =>
      refine ⟨keysNodup_derase _ _ hk, ?_⟩
      intro p hmem
      obtain ⟨hin, hne⟩ := mem_derase hk hmem
      have hpair := hp p hin
      have hsockmem : (sock, name) ∈ st.clients := alookup_some_mem hlook
      have hne2 : name ≠ p.2 := by
        intro he
        have hx := hp (sock, name) hsockmem
        rw [← he] at hpair
        rw [hx] at hpair
        exact hne (Option.some.inj hpair).symm
      by_cases hn : (alookup name st.client_names).isSome
      · simp only [hn, if_true]
        rw [alookup_derase_ne _ hne2]
        exact hpair
      · simp only [hn, if_false]
        exact hpair

theorem sessionInv_reachable {st : SessionState} (h : SReach st) : SessionInv st := by
  induction h with
  | init => exact ⟨by simp [keysNodup], by simp⟩
  | step _ hs ih =>
      cases hs with
      | connect sock name => exact sessionInv_handshake sock name _ ih
      | disconnect sendOk sock => exact sessionInv_remove sendOk sock _ ih

/-- Pairwise-distinct display names follow from unique socket keys plus the
name-map pairing. -/
theorem session_names_nodup (st : SessionState) (h : SessionInv st) :
    (st.clients.map Prod.snd).Nodup := by
  obtain ⟨hkeys, hpair⟩ := h
  revert hkeys hpair
  generalize st.clients = cl
  intro hkeys hpair
  induction cl with
  | nil => simp
  | cons p rest ih =>
      simp only [keysNodup, List.map_cons, List.nodup_cons] at hkeys ⊢
      refine ⟨?_, ih hkeys.2 (fun q hq => hpair q (List.mem_cons_of_mem _ hq))⟩
      intro hmem
      rcases List.mem_map.1 hmem with ⟨q, hq, hq2⟩
      have h1 := hpair q (List.mem_cons_of_mem _ hq)
      have h2 := hpair p (List.mem_cons_self _ _)
      rw [hq2] at h1
      rw [h1] at h2
      have : q.1 = p.1 := Option.some.inj h2
      exact hkeys.1 (this ▸ List.mem_map_of_mem Prod.fst hq)

/-- C6: at every reachable state of the Session Registry the display names of
the active sessions are pairwise distinct, and a handshake proposing a name
that is already registered is rejected with the fixed refusal line, leaving
the registry unchanged and creating no session. -/
theorem C6_name_uniqueness (st : SessionState) (h : SReach st) :
    ((st.clients.map Prod.snd).Nodup) ∧
    (∀ (sock : Nat) (name : String),
      (alookup name st.client_names).isSome = true →
      handshake sock name st =
        ⟨false, "Username already taken. Please try again.", st⟩) := by
  refine ⟨session_names_nodup st (sessionInv_reachable h), ?_⟩
  intro sock name hn
  simp [handshake, hn]

theorem C6_name_uniqueness_witness :
    (((handshake 1 "alice" ⟨[], []⟩).state.clients.map Prod.snd).Nodup) ∧
    handshake 2 "alice" (handshake 1 "alice" ⟨[], []⟩).state =
      ⟨false, "Username already taken. Please try again.",
       (handshake 1 "alice" ⟨[], []⟩).state⟩ := by
  have h := C6_name_uniqueness (handshake 1 "alice" ⟨[], []⟩).state
    (SReach.step SReach.init (SStep.connect ⟨[], []⟩ 1 "alice"))
  exact ⟨h.1, h.2 2 "alice" (by decide)⟩

/-! ### Conversation-key symmetry -/

theorem sortPair_comm (a b : String) : sortPair a b = sortPair b a := by
  unfold sortPair
  rcases le_total a b with h | h
  · by_cases h2 : b ≤ a
    · have he : a = b := le_antisymm h h2
      subst he
      simp
    · simp [h, h2]
  · by_cases h2 : a ≤ b
    · have he : a = b := le_antisymm h2 h
      subst he
      simp
    · simp [h, h2]

theorem chatFilename_direct_comm (a b : String) :
    chatFilename a b "direct" = chatFilename b a "direct" := by
  unfold chatFilename
  rw [if_neg (by decide : ("direct" : String) = "group" → False),
      if_neg (by decide : ("direct" : String) = "group" → False),
      sortPair_comm]

/-- C8: appending a direct-message entry selects the same log filename for
(`a`, `b`) as for (`b`, `a`): the name depends only on the sorted pair. -/
theorem C8_conversation_key_symmetric (t : Nat) (a b message : String)
    (fc fc' : FileContent) :
    (save_chat_history t a b message "direct" fc).1 =
    (save_chat_history t b a message "direct" fc').1 := by
  show chatFilename a b "direct" = chatFilename b a "direct"
  exact chatFilename_direct_comm a b

/-! ### The append path on a corrupted log -/

/-- C2 counterexample: on a log file whose contents fail to decode,
`save_chat_history` does not start a fresh array holding the new entry — the
`json.JSONDecodeError` escapes, because only `FileNotFoundError` is caught. -/
theorem C2_corrupted_log_cex :
    (save_chat_history 0 "alice" "bob" "hi" "direct" FileContent.corrupt).2 =
      Except.error ("json.JSONDecodeError") ∧
    (save_chat_history 0 "alice" "bob" "hi" "direct" FileContent.corrupt).2 ≠
      Except.ok [mkChatEntry 0 "alice" "bob" "hi" "direct"] := by
  refine ⟨rfl, ?_⟩
  intro hcontra
  rw [show (save_chat_history 0 "alice" "bob" "hi" "direct" FileContent.corrupt).2 =
      Except.error ("json.JSONDecodeError") from rfl] at hcontra
  exact Except.noConfusion hcontra

/-- C2 amended: only a missing file is treated as an empty history (the fresh
array holds just the new entry); an existing file that fails to decode makes
the append raise, and a decodable file gets the entry appended. -/
theorem C2_append_read_behaviour (t : Nat) (sender receiver message mtype : String)
    (h : List ChatEntry) :
    (save_chat_history t sender receiver message mtype FileContent.missing).2 =
      Except.ok [mkChatEntry t sender receiver message mtype] ∧
    (save_chat_history t sender receiver message mtype FileContent.corrupt).2 =
      Except.error ("json.JSONDecodeError") ∧
    (save_chat_history t sender receiver message mtype (FileContent.valid h)).2 =
      Except.ok (h ++ [mkChatEntry t sender receiver message mtype]) :=
  ⟨rfl, rfl, rfl⟩

/-! ### Group metadata timestamps -/

theorem save_group_info_groups (t : Nat) (g : String) (st : GroupState) :
    (save_group_info t g st).groups = st.groups := by
  unfold save_group_info
  cases alookup g st.group_admins <;> cases alookup g st.groups <;> rfl

theorem save_group_info_admins (t : Nat) (g : String) (st : GroupState) :
    (save_group_info t g st).group_admins = st.group_admins := by
  unfold save_group_info
  cases alookup g st.group_admins <;> cases alookup g st.groups <;> rfl

theorem save_group_info_files_nodup (t : Nat) (g : String) (st : GroupState)
    (hf : keysNodup st.files) : keysNodup (save_group_info t g st).files := by
  unfold save_group_info
  cases alookup g st.group_admins <;> cases alookup g st.groups
  · exact hf
  · exact hf
  · exact hf
  · exact keysNodup_dinsert _ _ _ hf

theorem save_group_info_date (t : Nat) (g : String) (st : GroupState)
    (adm : String) (ms : List String)
    (ha : alookup g st.group_admins = some adm)
    (hm : alookup g st.groups = some ms) :
    alookup g (save_group_info t g st).files = some ⟨adm, ms, t⟩ := by
  unfold save_group_info
  rw [ha, hm]
  exact alookup_dinsert_self _ _ _

/-- C10: `save_group_info` stamps `created_date` with the time of that write,
so after the membership change of a successful `add_to_group` the persisted
`created_date` is the add time, no longer the creation time when they differ. -/
theorem C10_created_date_is_write_time :
    (∀ (t : Nat) (gname : String) (st : GroupState) (adm : String) (ms : List String),
        alookup gname st.group_admins = some adm →
        alookup gname st.groups = some ms →
        (alookup gname (save_group_info t gname st).files).map GroupMeta.created_date
          = some t) ∧
    (∀ (t1 t2 : Nat) (admin gname user : String) (online : List String),
        user ∈ online → user ≠ admin →
        ((alookup gname (create_group t1 admin gname ⟨[], [], []⟩).2.files).map
            GroupMeta.created_date = some t1) ∧
        ((alookup gname ((add_to_group t2 online admin gname user
              (create_group t1 admin gname ⟨[], [], []⟩).2).2).files).map
            GroupMeta.created_date = some t2) ∧
        (t2 ≠ t1 →
          (alookup gname ((add_to_group t2 online admin gname user
              (create_group t1 admin gname ⟨[], [], []⟩).2).2).files).map
            GroupMeta.created_date ≠ some t1)) := by
  constructor
  · intro t gname st adm ms ha hm
    rw [save_group_info_date t gname st adm ms ha hm]
    rfl
  · intro t1 t2 admin gname user online honline hne
    have hcreate : (create_group t1 admin gname ⟨[], [], []⟩).2 =
        ⟨[(gname, [admin])], [(gname, admin)],
         [(gname, ⟨admin, [admin], t1⟩)]⟩ := by
      simp [create_group, save_group_info, alookup, dinsert]
    rw [hcreate]
    have hadd : (add_to_group t2 online admin gname user
        (⟨[(gname, [admin])], [(gname, admin)],
          [(gname, ⟨admin, [admin], t1⟩)]⟩ : GroupState)).2 =
        ⟨[(gname, [admin, user])], [(gname, admin)],
         [(gname, ⟨admin, [admin, user], t2⟩)]⟩ := by
      simp [add_to_group, save_group_info, alookup, dinsert, honline, hne, Ne.symm hne]
    rw [hadd]
    refine ⟨by simp [alookup], by simp [alookup], ?_⟩
    intro ht
    simp [alookup, ht]

/-! ### Integrity-hash round trip -/

/-- C9 counterexample: the round trip is not an equivalence as stated.  The
reader's recomputation reproduces the stored hash exactly when the digests
agree, and SHA-256 maps infinitely many texts onto finitely many digests, so
some altered text also reproduces the stored hash. -/
theorem C9_roundtrip_cex :
    ¬ ∀ (ts : Nat) (s r ty torig talt : String),
        (verify_message_integrity ⟨ts, s, r, talt, hash_message torig, ty⟩ = true ↔
          talt = torig) := by
  intro hcl
  obtain ⟨a, b, hne, heq⟩ := hash_message_collision
  have h1 : verify_message_integrity ⟨0, "x", "y", b, hash_message a, "direct"⟩
      = true := by
    simp [verify_message_integrity, heq]
  exact hne ((hcl 0 "x" "y" "direct" a b).1 h1).symm

/-- C9 amended: recomputing the digest of the stored text reproduces the
stored hash if and only if the stored text has the same SHA-256 digest as the
original; in particular an unaltered text always verifies. -/
theorem C9_roundtrip_digest (ts : Nat) (s r ty : String) (torig talt : String) :
    (verify_message_integrity ⟨ts, s, r, talt, hash_message torig, ty⟩ = true ↔
      hash_message talt = hash_message torig) ∧
    (talt = torig →
      verify_message_integrity ⟨ts, s, r, talt, hash_message torig, ty⟩ = true) := by
  constructor
  · unfold verify_message_integrity
    simp only [beq_iff_eq]
    exact eq_comm
  · intro h
    subst h
    simp [verify_message_integrity]

theorem C9_roundtrip_witness :
    verify_message_integrity
      ⟨0, "alice", "bob", "hello", hash_message "hello", "direct"⟩ = true :=
  (C9_roundtrip_digest 0 "alice" "bob" "direct" "hello" "hello").2 rfl

/-! ### Delivery exclusion -/

theorem broadcastAux_delivered_ne (sendOk : Nat → Bool) (ssock : Nat)
    (sname msg : String) :
    ∀ (pending : List (Nat × String)) (st : SessionState)
      (dAcc nAcc : List (Nat × String)) (dirty : Bool),
      (∀ q ∈ dAcc, q.1 ≠ ssock) →
      ∀ p ∈ (broadcastAux sendOk ssock sname msg pending st dAcc nAcc dirty).delivered,
        p.1 ≠ ssock := by
  intro pending
  induction pending with
  | nil =>
      intro st dAcc nAcc dirty hacc p hp
      simp only [broadcastAux] at hp
      exact hacc p (List.mem_reverse.1 hp)
  | cons q rest ih =>
      obtain ⟨sock, nm⟩ := q
      intro st dAcc nAcc dirty hacc p hp
      by_cases hdirty : dirty = true
      · simp only [broadcastAux, hdirty, if_true] at hp
        exact hacc p (List.mem_reverse.1 hp)
      · simp only [broadcastAux, hdirty, if_false] at hp
        by_cases hss : sock = ssock
        · simp only [hss, if_true] at hp
          exact ih st dAcc nAcc false hacc p hp
        · simp only [hss, if_false] at hp
          by_cases hsd : sendOk sock = true
          · simp only [hsd, if_true] at hp
            refine ih st _ nAcc false ?_ p hp
            intro q hq
            rcases List.mem_cons.1 hq with h1 | h1
            · subst h1
              exact hss
            · exact hacc q h1
          · simp only [hsd, if_false] at hp
            exact ih _ dAcc _ true hacc p hp

theorem send_group_message_delivered_ne (sendOk : String → Bool) (t : Nat)
    (fc : FileContent) (message gname sender : String)
    (groups : List (String × List String)) (client_names : List (String × Nat)) :
    ∀ p ∈ (send_group_message sendOk t fc message gname sender groups
        client_names).delivered, p.1 ≠ sender := by
  intro p hp
  unfold send_group_message at hp
  split at hp
  · simp at hp
  · split at hp
    · simp at hp
    · split at hp
      · simp at hp
        obtain ⟨m, hbig, rfl⟩ := hp
        exact hbig.2.1.2
      · split at hp
        · simp at hp
          obtain ⟨m, hbig, rfl⟩ := hp
          exact hbig.2.1.2
        · simp at hp
          obtain ⟨m, hbig, rfl⟩ := hp
          exact hbig.2.1.2

/-- C7: `broadcast_message` never hands the broadcast line to the sender's
own socket, and `send_group_message` never delivers to the sender even when
the sender is a member of the group. -/
theorem C7_delivery_exclusion :
    (∀ (sendOk : Nat → Bool) (msg : String) (ssock : Nat) (st : SessionState)
        (p : Nat × String),
        p ∈ (broadcast_message sendOk msg ssock st).delivered → p.1 ≠ ssock) ∧
    (∀ (sendOk : String → Bool) (t : Nat) (fc : FileContent)
        (message gname sender : String) (groups : List (String × List String))
        (client_names : List (String × Nat)) (p : String × String),
        p ∈ (send_group_message sendOk t fc message gname sender groups
            client_names).delivered → p.1 ≠ sender) := by
  constructor
  · intro sendOk msg ssock st p hp
    exact broadcastAux_delivered_ne sendOk ssock _ msg st.clients st [] [] false
      (by simp) p hp
  · intro sendOk t fc message gname sender groups client_names p hp
    exact send_group_message_delivered_ne sendOk t fc message gname sender groups
      client_names p hp

theorem C7_delivery_exclusion_witness :
    ((2 : Nat), "alice: hi").1 ≠ 1 ∧ ("bob", "[g] alice: hi").1 ≠ "alice" := by
  constructor
  · exact C7_delivery_exclusion.1 (fun _ => true) "hi" 1
      ⟨[(1, "alice"), (2, "bob")], [("alice", 1), ("bob", 2)]⟩ (2, "alice: hi")
      (by decide)
  · exact C7_delivery_exclusion.2 (fun _ => true) 0 FileContent.missing "hi" "g"
      "alice" [("g", ["alice", "bob"])] [("alice", 1), ("bob", 2)]
      ("bob", "[g] alice: hi") (by decide)

/-! ### Broadcast fan-out under a send failure -/

/-- C3: with three clients and a send failure to the second, `broadcast_message`
catches the failure and removes the client, but the removal shrinks the dict
being iterated, so CPython raises `RuntimeError` at the next iteration step:
the third client never receives the broadcast (`delivered = []`, `raised`),
and the remaining clients get the departure notice instead. -/
theorem C3_broadcast_aborts_on_send_failure :
    broadcast_message (fun s => s != 2) "hi" 1
      ⟨[(1, "alice"), (2, "bob"), (3, "carol")],
       [("alice", 1), ("bob", 2), ("carol", 3)]⟩ =
      ⟨⟨[(1, "alice"), (3, "carol")], [("alice", 1), ("carol", 3)]⟩,
       [], [(1, "bob has left the chat"), (3, "bob has left the chat")], true⟩ := by
  decide

/-! ### Rejected group messages -/

/-- C4 counterexample: for a `#g hi` line naming a nonexistent group, the
sender's single reply is the echo line, not the failure description returned
by `send_group_message` (which the handler discards). -/
theorem C4_group_error_reply_cex :
    (dispatch_hash (fun _ => true) 0 FileContent.missing "alice" "g hi" [] [] =
      ⟨["[g] alice: hi"], [], none, false⟩) ∧
    (dispatch_hash (fun _ => true) 0 FileContent.missing "alice" "g hi" [] []
      ).senderReplies ≠ ["Group 'g' does not exist"] := by
  decide

/-- C4 amended: on a `#<group> <text>` command for a group that does not
exist or that the sender is not a member of, nothing is delivered or
persisted and the sender receives exactly one reply line — the echo
`[<group>] <sender>: <text>` — while the error string from
`send_group_message` is discarded. -/
theorem C4_rejected_group_message_echo (sendOk : String → Bool) (t : Nat)
    (fc : FileContent) (username body g txt : String)
    (groups : List (String × List String)) (client_names : List (String × Nat))
    (hsplit : pySplitOnce body = (g, some txt))
    (hrej : alookup g groups = none ∨
            ∃ ms, alookup g groups = some ms ∧ username ≠ "SYSTEM" ∧ username ∉ ms) :
    dispatch_hash sendOk t fc username body groups client_names =
      ⟨["[" ++ g ++ "] " ++ username ++ ": " ++ txt], [], none, false⟩ := by
  unfold dispatch_hash
  rw [hsplit]
  rcases hrej with h | ⟨ms, hms, hsys, hmem⟩
  · simp [send_group_message, h]
  · simp [send_group_message, hms, hsys, hmem]

theorem C4_rejected_group_message_echo_witness :
    dispatch_hash (fun _ => true) 0 FileContent.missing "bob" "gg hello"
      [("gg", ["alice"])] [("alice", 1)] =
      ⟨["[gg] bob: hello"], [], none, false⟩ :=
  C4_rejected_group_message_echo (fun _ => true) 0 FileContent.missing "bob"
    "gg hello" "gg" "hello" [("gg", ["alice"])] [("alice", 1)] (by decide)
    (Or.inr ⟨["alice"], rfl, by decide, by decide⟩)

/-! ### Private messages -/

/-- C5 counterexample: the target has an active session, yet the call fails —
the send to the target's socket raises, the sender receives the could-not-send
error reply, and no ChatEntry is appended.  So failure is not equivalent to
the target lacking an active session. -/
theorem C5_private_message_cex :
    (alookup "bob" [("alice", 1), ("bob", 2)]).isSome = true ∧
    send_private_message (fun s => s != 2) 0 FileContent.missing "hi" 1 "bob"
      ⟨[(1, "alice"), (2, "bob")], [("alice", 1), ("bob", 2)]⟩ =
      ⟨[(1, "Error: Could not send message to bob")], none, false⟩ := by
  decide

/-- C5 amended: `send_private_message` fails with the user-not-found reply
(and appends nothing) exactly when the target has no active session; when the
target is active and the sends succeed and the log decodes, the target gets
the private line, the sender the confirmation, and exactly one direct
ChatEntry is appended to the sorted-pair conversation log. -/
theorem C5_private_message_behaviour (sendOk : Nat → Bool) (t : Nat)
    (fc : FileContent) (message : String) (ssock : Nat) (target : String)
    (st : SessionState) (sname : String)
    (hsn : alookup ssock st.clients = some sname)
    (hok : sendOk ssock = true)
    (hfc : fc ≠ FileContent.corrupt)
    (htok : ∀ tsock, alookup target st.client_names = some tsock →
      sendOk tsock = true) :
    send_private_message sendOk t fc message ssock target st =
      match alookup target st.client_names with
      | none => ⟨[(ssock, "Error: User " ++ target ++ " not found")], none, false⟩
      | some tsock =>
          ⟨[(tsock, "[Private] " ++ sname ++ ": " ++ message),
            (ssock, "[Private to " ++ target ++ "]: " ++ message)],
           some (chatFilename sname target "direct",
                 mkChatEntry t sname target message "direct"), false⟩ := by
  unfold send_private_message
  rw [hsn]
  cases htgt : alookup target st.client_names with
  | none => simp [hok]
  | some tsock =>
      have h1 : sendOk tsock = true := htok tsock htgt
      cases fc with
      | corrupt => exact absurd rfl hfc
      | missing =>
          simp [h1, hok, save_chat_history, load_history_for_append, Except.map]
      | valid hist =>
          simp [h1, hok, save_chat_history, load_history_for_append, Except.map]

theorem C5_private_message_behaviour_witness :
    send_private_message (fun _ => true) 0 FileContent.missing "hi" 1 "bob"
      ⟨[(1, "alice"), (2, "bob")], [("alice", 1), ("bob", 2)]⟩ =
      ⟨[(2, "[Private] alice: hi"), (1, "[Private to bob]: hi")],
       some (chatFilename "alice" "bob" "direct",
             mkChatEntry 0 "alice" "bob" "hi" "direct"), false⟩ := by
  have h := C5_private_message_behaviour (fun _ => true) 0 FileContent.missing
    "hi" 1 "bob" ⟨[(1, "alice"), (2, "bob")], [("alice", 1), ("bob", 2)]⟩
    "alice" rfl rfl (by simp) (fun tsock _ => rfl)
  exact h

theorem C10_created_date_witness :
    (alookup "g" (save_group_info 5 "g"
        ⟨[("g", ["alice"])], [("g", "alice")], []⟩).files).map
      GroupMeta.created_date = some 5 ∧
    (alookup "g" ((add_to_group 7 ["alice", "bob"] "alice" "g" "bob"
        (create_group 3 "alice" "g" ⟨[], [], []⟩).2).2).files).map
      GroupMeta.created_date ≠ some 3 := by
  have h := C10_created_date_is_write_time
  exact ⟨h.1 5 "g" _ "alice" ["alice"] rfl rfl,
         (h.2 3 7 "alice" "g" "bob" ["alice", "bob"] (by decide) (by decide)).2.2
           (by decide)⟩

/-! ### The Group Registry invariant -/

theorem headD_mem {α : Type} {l : List α} (h : l ≠ []) (d : α) : l.headD d ∈ l := by
  cases l with
  | nil => exact absurd rfl h
  | cons a tl => simp

theorem groupInv_create (t : Nat) (admin gname : String) (st : GroupState)
    (h : GroupInv st) : GroupInv (create_group t admin gname st).2 := by
  obtain ⟨hg, ha, hf, hinv⟩ := h
  by_cases hex : (alookup gname st.groups).isSome
  · have hst : (create_group t admin gname st).2 = st := by
      simp [create_group, hex]
    rw [hst]
    exact ⟨hg, ha, hf, hinv⟩
  · have hst : (create_group t admin gname st).2 =
        save_group_info t gname
          { st with groups := dinsert gname [admin] st.groups,
                    group_admins := dinsert gname admin st.group_admins } := by
      simp [create_group, hex]
    rw [hst]
    refine ⟨?_, ?_, ?_, ?_⟩
    · rw [save_group_info_groups]
      exact keysNodup_dinsert _ _ _ hg
    · rw [save_group_info_admins]
      exact keysNodup_dinsert _ _ _ ha
    · exact save_group_info_files_nodup _ _ _ hf
    · intro g ms hm
      rw [save_group_info_groups] at hm
      rw [save_group_info_admins]
      by_cases hgg : g = gname
      · subst hgg
        rw [alookup_dinsert_self] at hm
        obtain rfl : [admin] = ms := Option.some.inj hm
        exact ⟨by simp, admin, alookup_dinsert_self _ _ _, by simp⟩
      · rw [alookup_dinsert_ne _ _ (fun he => hgg he.symm)] at hm
        obtain ⟨hne, adm, hadm, hmem⟩ := hinv g ms hm
        exact ⟨hne, adm,
               by rw [alookup_dinsert_ne _ _ (fun he => hgg he.symm)]; exact hadm,
               hmem⟩

theorem groupInv_add (t : Nat) (online : List String) (admin gname user : String)
    (st : GroupState) (h : GroupInv st) :
    GroupInv (add_to_group t online admin gname user st).2 := by
  obtain ⟨hg, ha, hf, hinv⟩ := h
  cases hms : alookup gname st.groups with
  | none =>
      have hst : (add_to_group t online admin gname user st).2 = st := by
        simp [add_to_group, hms]
      rw [hst]
      exact ⟨hg, ha, hf, hinv⟩
  | some ms =>
      cases hadm : alookup gname st.group_admins with
      | none =>
          have hst : (add_to_group t online admin gname user st).2 = st := by
            simp [add_to_group, hms, hadm]
          rw [hst]
          exact ⟨hg, ha, hf, hinv⟩
      | some adm =>
          by_cases h1 : adm = admin
          · by_cases h2 : user ∈ online
            · by_cases h3 : user ∈ ms
              · have hst : (add_to_group t online admin gname user st).2 = st := by
                  simp [add_to_group, hms, hadm, h1, h2, h3]
                rw [hst]
                exact ⟨hg, ha, hf, hinv⟩
              · have hst : (add_to_group t online admin gname user st).2 =
                    save_group_info t gname
                      { st with groups := dinsert gname (ms ++ [user]) st.groups } := by
                  simp [add_to_group, hms, hadm, h1, h2, h3]
                rw [hst]
                refine ⟨?_, ?_, ?_, ?_⟩
                · rw [save_group_info_groups]
                  exact keysNodup_dinsert _ _ _ hg
                · rw [save_group_info_admins]
                  exact ha
                · exact save_group_info_files_nodup _ _ _ hf
                · intro g ms0 hm
                  rw [save_group_info_groups] at hm
                  rw [save_group_info_admins]
                  by_cases hgg : g = gname
                  · subst hgg
                    rw [alookup_dinsert_self] at hm
                    obtain rfl : ms ++ [user] = ms0 := Option.some.inj hm
                    obtain ⟨hne0, adm0, hadm0, hmem0⟩ := hinv g ms hms
                    obtain rfl : adm0 = adm :=
                      Option.some.inj ((hadm0.symm.trans hadm))
                    exact ⟨by simp, adm0, hadm, List.mem_append_left _ hmem0⟩
                  · rw [alookup_dinsert_ne _ _ (fun he => hgg he.symm)] at hm
                    exact hinv g ms0 hm
            · have hst : (add_to_group t online admin gname user st).2 = st := by
                simp [add_to_group, hms, hadm, h1, h2]
              rw [hst]
              exact ⟨hg, ha, hf, hinv⟩
          · have hst : (add_to_group t online admin gname user st).2 = st := by
              simp [add_to_group, hms, hadm, h1]
            rw [hst]
            exact ⟨hg, ha, hf, hinv⟩

theorem groupInv_leave (t : Nat) (user gname : String) (st : GroupState)
    (h : GroupInv st) : GroupInv (leave_group t user gname st).2 := by
  obtain ⟨hg, ha, hf, hinv⟩ := h
  cases hms : alookup gname st.groups with
  | none =>
      have hst : (leave_group t user gname st).2 = st := by
        simp [leave_group, hms]
      rw [hst]
      exact ⟨hg, ha, hf, hinv⟩
  | some ms =>
      by_cases hu : user ∈ ms
      case neg =>
        have hst : (leave_group t user gname st).2 = st := by
          simp [leave_group, hms, hu]
        rw [hst]
        exact ⟨hg, ha, hf, hinv⟩
      case pos =>
        cases hadm : alookup gname st.group_admins with
        | none =>
            have hst : (leave_group t user gname st).2 = st := by
              simp [leave_group, hms, hu, hadm]
            rw [hst]
            exact ⟨hg, ha, hf, hinv⟩
        | some adm =>
            by_cases hempty : ms.erase user = []
            · have hst : (leave_group t user gname st).2 =
                  ⟨derase gname (dinsert gname (ms.erase user) st.groups),
                   derase gname st.group_admins, derase gname st.files⟩ := by
                simp [leave_group, hms, hu, hadm, hempty]
              rw [hst]
              refine ⟨keysNodup_derase _ _ (keysNodup_dinsert _ _ _ hg),
                      keysNodup_derase _ _ ha, keysNodup_derase _ _ hf, ?_⟩
              intro g ms0 hm
              by_cases hgg : g = gname
              · subst hgg
                rw [alookup_derase_self _ _ (keysNodup_dinsert _ _ _ hg)] at hm
                exact Option.noConfusion hm
              · rw [alookup_derase_ne _ (fun he => hgg he.symm),
                    alookup_dinsert_ne _ _ (fun he => hgg he.symm)] at hm
                obtain ⟨hne0, adm0, hadm0, hmem0⟩ := hinv g ms0 hm
                exact ⟨hne0, adm0,
                       by rw [alookup_derase_ne _ (fun he => hgg he.symm)]
                          exact hadm0,
                       hmem0⟩
            · by_cases hre : adm = user
              · have hst : (leave_group t user gname st).2 =
                    save_group_info t gname
                      ⟨dinsert gname (ms.erase user) st.groups,
                       dinsert gname ((ms.erase user).headD user) st.group_admins,
                       st.files⟩ := by
                  simp [leave_group, hms, hu, hadm, hempty, hre]
                rw [hst]
                refine ⟨?_, ?_, ?_, ?_⟩
                · rw [save_group_info_groups]
                  exact keysNodup_dinsert _ _ _ hg
                · rw [save_group_info_admins]
                  exact keysNodup_dinsert _ _ _ ha
                · exact save_group_info_files_nodup _ _ _ hf
                · intro g ms0 hm
                  rw [save_group_info_groups] at hm
                  rw [save_group_info_admins]
                  by_cases hgg : g = gname
                  · subst hgg
                    rw [alookup_dinsert_self] at hm
                    obtain rfl : ms.erase user = ms0 := Option.some.inj hm
                    exact ⟨hempty, (ms.erase user).headD user,
                           alookup_dinsert_self _ _ _, headD_mem hempty user⟩
                  · rw [alookup_dinsert_ne _ _ (fun he => hgg he.symm)] at hm
                    obtain ⟨hne0, adm0, hadm0, hmem0⟩ := hinv g ms0 hm
                    exact ⟨hne0, adm0,
                           by rw [alookup_dinsert_ne _ _ (fun he => hgg he.symm)]
                              exact hadm0,
                           hmem0⟩
              · have hst : (leave_group t user gname st).2 =
                    save_group_info t gname
                      { st with groups := dinsert gname (ms.erase user) st.groups } := by
                  simp [leave_group, hms, hu, hadm, hempty, hre]
                rw [hst]
                refine ⟨?_, ?_, ?_, ?_⟩
                · rw [save_group_info_groups]
                  exact keysNodup_dinsert _ _ _ hg
                · rw [save_group_info_admins]
                  exact ha
                · exact save_group_info_files_nodup _ _ _ hf
                · intro g ms0 hm
                  rw [save_group_info_groups] at hm
                  rw [save_group_info_admins]
                  by_cases hgg : g = gname
                  · subst hgg
                    rw [alookup_dinsert_self] at hm
                    obtain rfl : ms.erase user = ms0 := Option.some.inj hm
                    obtain ⟨hne0, adm0, hadm0, hmem0⟩ := hinv g ms hms
                    obtain rfl : adm0 = adm :=
                      Option.some.inj ((hadm0.symm.trans hadm))
                    exact ⟨hempty, adm0, hadm,
                           (List.mem_erase_of_ne hre).2 hmem0⟩
                  · rw [alookup_dinsert_ne _ _ (fun he => hgg he.symm)] at hm
                    exact hinv g ms0 hm

theorem groupInv_reachable {st : GroupState} (h : GReach st) : GroupInv st := by
  induction h with
  | init =>
      exact ⟨by simp [keysNodup], by simp [keysNodup], by simp [keysNodup],
             by intro g ms hm; simp [alookup] at hm⟩
  | step _ hs ih =>
      cases hs with
      | create t admin gname => exact groupInv_create t admin gname _ ih
      | add t online admin gname user => exact groupInv_add t online admin gname user _ ih
      | leave t user gname => exact groupInv_leave t user gname _ ih

/-- C1: at every reachable Group Registry state, each existing group has a
non-empty member set containing its admin; and a `leave_group` call that
empties a group's member set removes the group from both registries and
deletes its persisted metadata file. -/
theorem C1_group_registry_invariant (st : GroupState) (h : GReach st) :
    (∀ g ms, alookup g st.groups = some ms →
       ms ≠ [] ∧ ∃ adm, alookup g st.group_admins = some adm ∧ adm ∈ ms) ∧
    (∀ (t : Nat) (user g : String) (ms : List String),
       alookup g st.groups = some ms → user ∈ ms → ms.erase user = [] →
       alookup g (leave_group t user g st).2.groups = none ∧
       alookup g (leave_group t user g st).2.group_admins = none ∧
       alookup g (leave_group t user g st).2.files = none) := by
  obtain ⟨hg, ha, hf, hinv⟩ := groupInv_reachable h
  refine ⟨hinv, ?_⟩
  intro t user g ms hm hu hempty
  obtain ⟨-, adm, hadm, -⟩ := hinv g ms hm
  have hst : (leave_group t user g st).2 =
      ⟨derase g (dinsert g (ms.erase user) st.groups),
       derase g st.group_admins, derase g st.files⟩ := by
    simp [leave_group, hm, hu, hadm, hempty]
  rw [hst]
  exact ⟨alookup_derase_self _ _ (keysNodup_dinsert _ _ _ hg),
         alookup_derase_self _ _ ha, alookup_derase_self _ _ hf⟩

theorem C1_group_registry_invariant_witness :
    alookup "g" (leave_group 1 "alice" "g"
        (create_group 0 "alice" "g" ⟨[], [], []⟩).2).2.groups = none ∧
    alookup "g" (leave_group 1 "alice" "g"
        (create_group 0 "alice" "g" ⟨[], [], []⟩).2).2.group_admins = none ∧
    alookup "g" (leave_group 1 "alice" "g"
        (create_group 0 "alice" "g" ⟨[], [], []⟩).2).2.files = none := by
  have h := C1_group_registry_invariant (create_group 0 "alice" "g" ⟨[], [], []⟩).2
    (GReach.step GReach.init (GStep.create ⟨[], [], []⟩ 0 "alice" "g"))
  exact h.2 1 "alice" "g" ["alice"] (by decide) (by decide) (by decide)

end ChatBot
